import Mathlib

/-!
Verification of the `deet` debugger core (`src/deet/src/debugger.rs`,
`src/deet/src/inferior.rs`).

The OS tracing layer (`ptrace`) is modelled explicitly:

* memory of the traced child is a map `Nat → Option Nat` from an address to
  the 64-bit machine word stored starting at that address (`none` means the
  address is inaccessible, so `ptrace::read`/`write` there fail);
  the debugger reads and writes words only at addresses it previously read,
  so a write succeeds exactly when the read at the same address does;
* registers are an explicit record (`rip`, `rbp`);
* the results of `waitpid` are oracle parameters (`Except Unit Status`),
  matching `Result<Status, nix::Error>`;
* every `ptrace` request and every `println!` is logged as a structured
  `Event`, and a Rust panic (`panic!`, `unwrap` on `None`/`Err`, arithmetic
  underflow, out-of-bounds indexing) aborts the function, recorded as
  `panicked := some msg` with the state at the moment of the panic.
-/

namespace Deet

/-- Signals are modelled by their number; only SIGTRAP is distinguished. -/
abbrev Signal := Nat

/-- `nix::sys::signal::SIGTRAP`. -/
def SIGTRAP : Signal := 5

/-- `inferior.rs` `Status`: result of waiting on the traced child. -/
inductive Status where
  | Stopped (sig : Signal) (ip : Nat)
  | Exited (code : Int)
  | Signaled (sig : Signal)
deriving DecidableEq, Repr

/-- Register file of the traced child (the fields the debugger touches). -/
structure Regs where
  rip : Nat
  rbp : Nat
deriving DecidableEq, Repr

/-- Child-process memory: word stored at each address (`none` = inaccessible). -/
abbrev Mem := Nat → Option Nat

/-- The traced child's observable machine state. -/
structure World where
  mem : Mem
  regs : Regs

/-- `inferior.rs` `Inferior`: the `HashMap<usize, u8>` of patched address →
original byte is modelled as a partial function. -/
structure Inferior where
  bp_map : Nat → Option Nat

/-- A source line record returned by the DWARF resolver; `display` models its
`Display` rendering. -/
structure Line where
  number : Nat
  display : String

/-- The external symbol resolver (`DwarfData`), §6 of the spec: pure lookups. -/
structure DwarfData where
  get_function_from_addr : Nat → Option String
  get_line_from_addr : Nat → Option Line
  get_addr_for_line : Nat → Option Nat
  get_addr_for_function : String → Option Nat

/-- `debugger.rs` `Debugger`: the session state the core manipulates
(readline/history fields are front-end concerns and are omitted). -/
structure Debugger where
  target : String
  inferior : Option Inferior
  debug_data : DwarfData
  breakpoints : List Nat

/-- Log entry: one `ptrace` request or one printed status line (print events
carry the data that the Rust format string would render). -/
inductive Event where
  | evStep
  | evCont
  | evWait
  | evKill
  | evSpawn
  | evWriteByte (addr val : Nat)
  | evSetRegs (rip : Nat)
  | evPrintStoppedAtBreakpoint (addr : Nat) (sig : Signal)
  | evPrintStoppedSignal (sig : Signal)
  | evPrintFuncLine (f l : String)
  | evPrintSourceLine (n : Nat) (s : String)
  | evPrintExited (code : Int)
  | evPrintTerminated (sig : Signal)
  | evPrintErrorResuming
  | evPrintFrame (idx ip : Nat) (f l : String)
  | evPrintBacktraceError
  | evPrintStarting (target : String)
  | evPrintErrorStarting
  | evPrintBreakpointAlreadySet (addr : Nat)
  | evPrintSettingBreakpoint (idx addr : Nat)
  | evPrintAlreadySetAtLocation
  | evPrintUnableToSet (addr : Nat)
  | evPrintRemoveInvalid
deriving DecidableEq, Repr

/-- Rust panic message of `panic!("Stopped after ptrace::step due to signal other than SIGTRAP.")`. -/
def msgStepNonTrap : String := "Stopped after ptrace::step due to signal other than SIGTRAP."

/-- Rust panic message of `Option::unwrap` on `None`. -/
def msgUnwrapNone : String := "called Option::unwrap on a None value"

/-- Rust panic message of `Result::unwrap` on `Err`. -/
def msgUnwrapErr : String := "called Result::unwrap on an Err value"

/-- Rust panic message of the debug-mode underflow of `ip - 1` (debugger.rs:156). -/
def msgSubUnderflow : String := "attempt to subtract with overflow"

/-- Rust panic message of `panic!("File not found!")`. -/
def msgFileNotFound : String := "File not found!"

/-- Rust panic message of an out-of-bounds `lines[line_num - 1]`. -/
def msgIndexOob : String := "index out of bounds"

/-- Result of running one debugger operation: the event log, the session and
child state afterwards, and the panic message if the operation panicked
(fields hold the state at the moment of the panic). -/
structure Out where
  events : List Event
  dbg : Debugger
  world : World
  panicked : Option String

/-- `inferior.rs:34`: `addr & (-(size_of::<usize>() as isize) as usize)`;
on a 64-bit target `-(8 : isize) as usize = 2^64 - 8`. -/
def align_addr_to_word (addr : Nat) : Nat :=
  addr &&& (2 ^ 64 - 8)

/-- Rust `!x` on `u64`: bitwise complement within 64 bits. -/
def u64_not (x : Nat) : Nat :=
  x ^^^ (2 ^ 64 - 1)

/-- The byte at position `j` (counting from the least significant end) of a
machine word `w`: the observable the word-patching claims speak about. -/
def byteAt (w j : Nat) : Nat :=
  (w >>> (8 * j)) &&& 0xff

/-- `inferior.rs:127` `Inferior::write_byte`: read the aligned word containing
`addr`, splice `val` into the byte at the offset of `addr`, write the word
back; returns the original byte and the updated memory. -/
def write_byte (mem : Mem) (addr : Nat) (val : Nat) :
    Except Unit (Nat × Mem) :=
  let aligned_addr := align_addr_to_word addr
  let byte_offset := addr - aligned_addr
  match mem aligned_addr with
  | none => .error ()
  | some word =>
    let orig_byte := (word >>> (8 * byte_offset)) &&& 0xff
    let masked_word := word &&& u64_not (0xff <<< (8 * byte_offset))
    let updated_word := masked_word ||| (val <<< (8 * byte_offset))
    .ok (orig_byte, fun a => if a = aligned_addr then some updated_word else mem a)

/-- Result of `Inferior::write_breakpoints`: event log, updated inferior and
memory, and the `Result<(), nix::Error>` outcome. -/
structure WBOut where
  events : List Event
  inf : Inferior
  mem : Mem
  result : Except Unit Unit

/-- `inferior.rs:106` `Inferior::write_breakpoints`: for each address, skip
(with a message) if already in `bp_map`, otherwise patch `0xcc` in and record
the original byte; the first patch failure reports and aborts the batch,
keeping the entries already installed. -/
def write_breakpoints (inf : Inferior) (mem : Mem) : List Nat → WBOut
  | [] => ⟨[], inf, mem, .ok ()⟩
  | bpt :: rest =>
    match inf.bp_map bpt with
    | some _ =>
      let r := write_breakpoints inf mem rest
      ⟨.evPrintAlreadySetAtLocation :: r.events, r.inf, r.mem, r.result⟩
    | none =>
      match write_byte mem bpt 0xcc with
      | .ok (orig_byte, mem') =>
        let inf' : Inferior :=
          ⟨fun a => if a = bpt then some orig_byte else inf.bp_map a⟩
        let r := write_breakpoints inf' mem' rest
        ⟨.evWriteByte bpt 0xcc :: r.events, r.inf, r.mem, r.result⟩
      | .error _ =>
        ⟨[.evWriteByte bpt 0xcc, .evPrintUnableToSet bpt], inf, mem, .error ()⟩

/-- Result of `Inferior::new`: event log and, on success, the new inferior
together with the (possibly patched) child memory. -/
structure NewOut where
  events : List Event
  result : Option (Inferior × Mem)

/-- `inferior.rs:46` `Inferior::new`: spawn the child with tracing enabled,
wait for the initial SIGTRAP stop, then install the pre-registered
breakpoints. `spawnOk` models whether `Command::spawn` succeeds and
`initialWait` the result of the first `wait`. Note: a breakpoint-install
failure only prints a message — the inferior is still returned. -/
def Inferior.new (spawnOk : Bool) (initialWait : Except Unit Status)
    (breakpoints : List Nat) (mem : Mem) : NewOut :=
  if spawnOk then
    match initialWait with
    | .ok (.Stopped sig _ip) =>
      if sig ≠ SIGTRAP then ⟨[.evSpawn, .evWait], none⟩
      else
        let r := write_breakpoints ⟨fun _ => none⟩ mem breakpoints
        match r.result with
        | .error _ =>
          ⟨[.evSpawn, .evWait] ++ r.events ++ [.evPrintRemoveInvalid], some (r.inf, r.mem)⟩
        | .ok _ => ⟨[.evSpawn, .evWait] ++ r.events, some (r.inf, r.mem)⟩
    | .ok _ => ⟨[.evSpawn, .evWait], none⟩
    | .error _ => ⟨[.evSpawn, .evWait], none⟩
  else ⟨[.evSpawn], none⟩

/-- `debugger.rs:238` `Debugger::get_func_and_line`. -/
def get_func_and_line (dd : DwarfData) (ip : Nat) : String × String :=
  let function := match dd.get_function_from_addr ip with
    | some val => val
    | none => "[untraceable function]"
  let line := match dd.get_line_from_addr ip with
    | some val => val.display
    | none => "[unknown location]"
  (function, line)

/-- `debugger.rs:171-188`: the tail of the `Stopped` arm of `handle_stop`:
print function/line, and if the address resolves to a known source line, open
`<target>.c` (`fc` models its contents, `none` = file missing) and echo that
line. `acc` are the events already emitted by the arm. -/
def stop_report_tail (dbg : Debugger) (w : World) (fc : Option String)
    (ip : Nat) (acc : List Event) : Out :=
  let fl := get_func_and_line dbg.debug_data ip
  let acc := acc ++ [.evPrintFuncLine fl.1 fl.2]
  match dbg.debug_data.get_line_from_addr ip with
  | none => ⟨acc, dbg, w, none⟩
  | some l =>
    match fc with
    | none => ⟨acc, dbg, w, some msgFileNotFound⟩
    | some contents =>
      let lines := contents.splitOn "\n"
      if l.number = 0 then ⟨acc, dbg, w, some msgSubUnderflow⟩
      else
        match lines.get? (l.number - 1) with
        | none => ⟨acc, dbg, w, some msgIndexOob⟩
        | some s => ⟨acc ++ [.evPrintSourceLine l.number s], dbg, w, none⟩

/-- `debugger.rs:152` `Debugger::handle_stop`: classify a wait status.
On `Stopped(sig, ip)`: compute `break_addr = ip - 1` (a debug-mode panic when
`ip = 0`), and if it is a session breakpoint, restore the saved original byte
there and rewind `rip` to it; then report function/line and echo the source
line. `Exited`/`Signaled` print and discard the inferior. -/
def handle_stop (dbg : Debugger) (w : World) (fc : Option String)
    (status : Status) : Out :=
  match status with
  | .Stopped sig ip =>
    if ip = 0 then ⟨[], dbg, w, some msgSubUnderflow⟩
    else
      let break_addr := ip - 1
      match dbg.inferior with
      | none => ⟨[], dbg, w, some msgUnwrapNone⟩
      | some inf =>
        if dbg.breakpoints.contains break_addr then
          let acc := [Event.evPrintStoppedAtBreakpoint break_addr sig]
          match inf.bp_map break_addr with
          | none => ⟨acc, dbg, w, some msgUnwrapNone⟩
          | some orig =>
            let acc := acc ++ [Event.evWriteByte break_addr orig]
            match write_byte w.mem break_addr orig with
            | .error _ => ⟨acc, dbg, w, some msgUnwrapErr⟩
            | .ok (_old, mem') =>
              let acc := acc ++ [Event.evSetRegs break_addr]
              let w' : World := ⟨mem', ⟨break_addr, w.regs.rbp⟩⟩
              stop_report_tail dbg w' fc ip acc
        else
          stop_report_tail dbg w fc ip [Event.evPrintStoppedSignal sig]
  | .Exited code => ⟨[.evPrintExited code], { dbg with inferior := none }, w, none⟩
  | .Signaled sig => ⟨[.evPrintTerminated sig], { dbg with inferior := none }, w, none⟩

/-- `debugger.rs:114-139`: the first block of `Debugger::resume` (the
step-over-breakpoint protocol): if `rip` sits on a session breakpoint,
single-step, wait (`stepWait`), and on a SIGTRAP stop re-patch `0xcc` at that
address; a stop with any other signal panics; a non-`Stopped` status is
dispatched to `handle_stop` (which discards the inferior); an `Err` from the
wait is silently skipped. -/
def resume_step_over (dbg : Debugger) (w : World) (fc : Option String)
    (stepWait : Except Unit Status) : Out :=
  match dbg.inferior with
  | none => ⟨[], dbg, w, some msgUnwrapNone⟩
  | some _inf =>
    let ip := w.regs.rip
    if dbg.breakpoints.contains ip then
      let acc := [Event.evStep, Event.evWait]
      match stepWait with
      | .error _ => ⟨acc, dbg, w, none⟩
      | .ok status =>
        match status with
        | .Stopped sig _ip2 =>
          if sig = SIGTRAP then
            let acc := acc ++ [Event.evWriteByte ip 0xcc]
            match write_byte w.mem ip 0xcc with
            | .ok (_orig, mem') => ⟨acc, dbg, { w with mem := mem' }, none⟩
            | .error _ => ⟨acc, dbg, w, some msgUnwrapErr⟩
          else ⟨acc, dbg, w, some msgStepNonTrap⟩
        | _ =>
          let h := handle_stop dbg w fc status
          ⟨acc ++ h.events, h.dbg, h.world, h.panicked⟩
    else ⟨[], dbg, w, none⟩

/-- `debugger.rs:113` `Debugger::resume`: the step-over block above, then
`self.inferior.as_mut().unwrap()` (a panic if the step-over discarded the
inferior), `ptrace::cont`, wait (`contWait`), and dispatch to `handle_stop`
(an `Err` wait prints an error instead). -/
def resume (dbg : Debugger) (w : World) (fc : Option String)
    (stepWait contWait : Except Unit Status) : Out :=
  let p := resume_step_over dbg w fc stepWait
  match p.panicked with
  | some _ => p
  | none =>
    match p.dbg.inferior with
    | none => { p with panicked := some msgUnwrapNone }
    | some _inf =>
      match contWait with
      | .ok st =>
        let h := handle_stop p.dbg p.world fc st
        ⟨p.events ++ [Event.evCont, Event.evWait] ++ h.events, h.dbg, h.world, h.panicked⟩
      | .error _ =>
        ⟨p.events ++ [Event.evCont, Event.evWait, Event.evPrintErrorResuming],
          p.dbg, p.world, none⟩

/-- `debugger.rs:286-307`: the body of `Debugger::set_breakpoint` after the
spec string has been resolved to a concrete address (lines 252-284 parse the
string via `parse_address` or the external resolver; the claims quantify over
the resolved address): a duplicate is reported and ignored; otherwise, with a
live inferior the address is installed first and on failure the function
returns early — only after a successful (or not-needed) install is the
address pushed onto `breakpoints`. -/
def set_breakpoint_resolved (dbg : Debugger) (w : World) (breakpoint : Nat) : Out :=
  if dbg.breakpoints.contains breakpoint then
    ⟨[.evPrintBreakpointAlreadySet breakpoint], dbg, w, none⟩
  else
    let ev0 := Event.evPrintSettingBreakpoint dbg.breakpoints.length breakpoint
    match dbg.inferior with
    | some inf =>
      let r := write_breakpoints inf w.mem [breakpoint]
      match r.result with
      | .error _ =>
        ⟨ev0 :: r.events, { dbg with inferior := some r.inf }, { w with mem := r.mem }, none⟩
      | .ok _ =>
        ⟨ev0 :: r.events,
          { dbg with inferior := some r.inf,
                     breakpoints := dbg.breakpoints ++ [breakpoint] },
          { w with mem := r.mem }, none⟩
    | none =>
      ⟨[ev0], { dbg with breakpoints := dbg.breakpoints ++ [breakpoint] }, w, none⟩

/-- `debugger.rs:59-74`: the `Run(args)` arm of the command loop: kill any
active inferior (it is killed but `self.inferior` is not cleared), print the
start message, launch via `Inferior::new`, and on success store the inferior
and `resume`; on failure print an error. -/
def run_command (dbg : Debugger) (w : World) (fc : Option String)
    (args : List String) (spawnOk : Bool)
    (initialWait stepWait contWait : Except Unit Status) : Out :=
  let killEvs := match dbg.inferior with
    | some _ => [Event.evKill]
    | none => []
  let evs0 := killEvs ++ [Event.evPrintStarting dbg.target]
  let n := Inferior.new spawnOk initialWait dbg.breakpoints w.mem
  match n.result with
  | some (inf, mem') =>
    let dbg' := { dbg with inferior := some inf }
    let w' := { w with mem := mem' }
    let r := resume dbg' w' fc stepWait contWait
    ⟨evs0 ++ n.events ++ r.events, r.dbg, r.world, r.panicked⟩
  | none => ⟨evs0 ++ n.events ++ [Event.evPrintErrorStarting], dbg, w, none⟩

/-- `debugger.rs:211-233`: the frame-walking loop of `Debugger::backtrace`,
with explicit `fuel` (the Rust loop has no bound; fuel exhaustion yields no
further output). Each iteration prints the frame, stops after printing when
the resolved function is `"main"`, otherwise reads the next `ip` at `bp + 8`
and the next `bp` at `bp` — a failed read prints the unable-to-complete
marker and breaks; a read word `≥ 2^63` is a negative `i64`, so the Rust
`try_into::<usize>().unwrap()` panics. -/
def backtrace_loop (dd : DwarfData) (mem : Mem) :
    Nat → Nat → Nat → Nat → List Event × Option String
  | 0, _, _, _ => ([], none)
  | fuel + 1, stack_idx, ip, bp =>
    let fl := get_func_and_line dd ip
    let head := Event.evPrintFrame stack_idx ip fl.1 fl.2
    if fl.1 = "main" then ([head], none)
    else
      match mem (bp + 8) with
      | none => ([head, .evPrintBacktraceError], none)
      | some ipw =>
        if ipw < 2 ^ 63 then
          match mem bp with
          | none => ([head, .evPrintBacktraceError], none)
          | some bpw =>
            if bpw < 2 ^ 63 then
              let r := backtrace_loop dd mem fuel (stack_idx + 1) ipw bpw
              (head :: r.1, r.2)
            else ([head], some msgUnwrapErr)
        else ([head], some msgUnwrapErr)

/-- `debugger.rs:202` `Debugger::backtrace`: start the walk from the current
`rip`/`rbp` with frame index 0. -/
def backtrace (dd : DwarfData) (w : World) (fuel : Nat) :
    List Event × Option String :=
  backtrace_loop dd w.mem fuel 0 w.regs.rip w.regs.rbp

/-! ### Word-patching arithmetic -/

/-- Bits at or above the width bound of a machine word are clear. -/
theorem testBit_of_lt (x n i : Nat) (hx : x < 2 ^ n) (hi : n ≤ i) :
    x.testBit i = false :=
  Nat.testBit_lt_two_pow (lt_of_lt_of_le hx (Nat.pow_le_pow_right (by norm_num) hi))

/-- The 64-bit alignment mask, written as a shifted all-ones block. -/
theorem two_pow_sub_eight : (2 : Nat) ^ 64 - 8 = (2 ^ 61 - 1) <<< 3 := by
  norm_num [Nat.shiftLeft_eq]

/-- For a `usize` address, the alignment mask clears exactly the low 3 bits. -/
theorem align_eq_shift (addr : Nat) (h : addr < 2 ^ 64) :
    align_addr_to_word addr = (addr >>> 3) <<< 3 := by
  apply Nat.eq_of_testBit_eq
  intro i
  rw [align_addr_to_word, two_pow_sub_eight, Nat.testBit_and, Nat.testBit_shiftLeft,
      Nat.testBit_shiftLeft, Nat.testBit_shiftRight, Nat.testBit_two_pow_sub_one]
  by_cases h3 : 3 ≤ i
  · have h33 : 3 + (i - 3) = i := by omega
    by_cases h64 : i < 64
    · have h61 : i - 3 < 61 := by omega
      simp [h3, h33, h61, ge_iff_le]
    · have hfalse : addr.testBit i = false := testBit_of_lt addr 64 i h (by omega)
      simp [h33, hfalse]
  · simp [ge_iff_le, h3]

/-- `align_addr_to_word` rounds a `usize` address down to a multiple of 8. -/
theorem align_eq_sub_mod (addr : Nat) (h : addr < 2 ^ 64) :
    align_addr_to_word addr = addr - addr % 8 := by
  rw [align_eq_shift addr h, Nat.shiftLeft_eq, Nat.shiftRight_eq_div_pow]
  omega

/-- The byte offset computed by `write_byte` is `addr % 8`. -/
theorem byte_offset_eq (addr : Nat) (h : addr < 2 ^ 64) :
    addr - align_addr_to_word addr = addr % 8 := by
  rw [align_eq_sub_mod addr h]
  omega

/-- Bit view of `byteAt`. -/
theorem byteAt_testBit (x j i : Nat) :
    (byteAt x j).testBit i = (x.testBit (8 * j + i) && decide (i < 8)) := by
  simp only [byteAt, show (0xff : Nat) = 2 ^ 8 - 1 from by norm_num,
    Nat.testBit_and, Nat.testBit_shiftRight, Nat.testBit_two_pow_sub_one]

/-- Bit view of the word produced by the mask-and-splice: inside the targeted
byte the bits come from `val`, everywhere else (below bit 64) from `word`. -/
theorem splice_testBit (word val k n : Nat) (hv : val < 256) (hn : n < 64) :
    ((word &&& u64_not (0xff <<< (8 * k))) ||| (val <<< (8 * k))).testBit n
      = if 8 * k ≤ n ∧ n < 8 * k + 8 then val.testBit (n - 8 * k)
        else word.testBit n := by
  simp only [u64_not, show (0xff : Nat) = 2 ^ 8 - 1 from by norm_num,
    Nat.testBit_and, Nat.testBit_or, Nat.testBit_xor, Nat.testBit_shiftLeft,
    Nat.testBit_shiftRight, Nat.testBit_two_pow_sub_one, ge_iff_le]
  by_cases h1 : 8 * k ≤ n
  · by_cases h2 : n - 8 * k < 8
    · have hin : 8 * k ≤ n ∧ n < 8 * k + 8 := by omega
      simp [h1, h2, hn, hin]
    · have h4 : ¬ (n < 8 * k + 8) := by omega
      have h3 : val.testBit (n - 8 * k) = false :=
        testBit_of_lt val 8 _ hv (by omega)
      simp [h1, h2, h3, hn, h4]
  · have hout : ¬ (8 * k ≤ n ∧ n < 8 * k + 8) := by omega
    simp [h1, hn, hout]

/-- Splicing a byte into a word: every byte position other than the targeted
one is unchanged, and the targeted one becomes the new byte. -/
theorem byteAt_splice (word val k j : Nat) (hw : word < 2 ^ 64) (hv : val < 256)
    (hk : k < 8) (hj : j < 8) :
    byteAt ((word &&& u64_not (0xff <<< (8 * k))) ||| (val <<< (8 * k))) j
      = if j = k then val else byteAt word j := by
  apply Nat.eq_of_testBit_eq
  intro i
  rw [byteAt_testBit]
  by_cases hi8 : i < 8
  · have hn64 : 8 * j + i < 64 := by omega
    rw [splice_testBit word val k _ hv hn64]
    by_cases hjk : j = k
    · subst hjk
      have hin : 8 * j ≤ 8 * j + i ∧ 8 * j + i < 8 * j + 8 := by omega
      have hsub : 8 * j + i - 8 * j = i := by omega
      simp [hin, hsub, hi8]
    · have hout : ¬ (8 * k ≤ 8 * j + i ∧ 8 * j + i < 8 * k + 8) := by omega
      simp [hout, hjk, byteAt_testBit]
  · have hv8 : val.testBit i = false := testBit_of_lt val 8 i (by omega) (by omega)
    by_cases hjk : j = k <;> simp [hi8, hjk, hv8, byteAt_testBit]

/-- The spliced word still fits in 64 bits. -/
theorem splice_lt (word val k : Nat) (hw : word < 2 ^ 64) (hv : val < 256)
    (hk : k < 8) :
    (word &&& u64_not (0xff <<< (8 * k))) ||| (val <<< (8 * k)) < 2 ^ 64 := by
  apply Nat.or_lt_two_pow
  · exact lt_of_le_of_lt Nat.and_le_left hw
  · rw [Nat.shiftLeft_eq]
    calc val * 2 ^ (8 * k) ≤ 255 * 2 ^ 56 :=
          Nat.mul_le_mul (by omega) (Nat.pow_le_pow_right (by norm_num) (by omega))
      _ < 2 ^ 64 := by norm_num

/-- Full functional specification of `Inferior::write_byte` on an accessible
address: it returns the pre-call byte at the offset of `addr` in the aligned
word, and rewrites only that byte of only that word. -/
theorem write_byte_spec (mem : Mem) (addr val word : Nat)
    (ha : addr < 2 ^ 64) (hm : mem (align_addr_to_word addr) = some word)
    (hw : word < 2 ^ 64) (hv : val < 256) :
    ∃ mem' updated,
      write_byte mem addr val = .ok (byteAt word (addr % 8), mem') ∧
      mem' (align_addr_to_word addr) = some updated ∧
      updated < 2 ^ 64 ∧
      (∀ j, j < 8 → byteAt updated j = if j = addr % 8 then val else byteAt word j) ∧
      (∀ a, a ≠ align_addr_to_word addr → mem' a = mem a) := by
  have hoff := byte_offset_eq addr ha
  have hk : addr % 8 < 8 := Nat.mod_lt _ (by norm_num)
  refine ⟨fun a => if a = align_addr_to_word addr then
      some ((word &&& u64_not (0xff <<< (8 * (addr % 8)))) ||| (val <<< (8 * (addr % 8))))
      else mem a,
    (word &&& u64_not (0xff <<< (8 * (addr % 8)))) ||| (val <<< (8 * (addr % 8))),
    ?_, ?_, ?_, ?_, ?_⟩
  · rw [write_byte]
    simp only [hm, hoff, byteAt]
  · simp
  · exact splice_lt word val (addr % 8) hw hv hk
  · intro j hj
    exact byteAt_splice word val (addr % 8) j hw hv hk hj
  · intro a hane
    simp [hane]

/-! ### Claim C3 -/

/-- C3. Patch-byte word arithmetic: for every address `addr` and byte `val`,
`write_byte addr val` returns the byte stored at `addr` before the call (the
byte at offset `addr - align_addr_to_word addr` of the word read at the
aligned address), and the word it writes back equals the original word with
only that one byte position replaced by `val` — all other bytes of the word
are unchanged (and all other words of memory are untouched). -/
theorem write_byte_patches_one_byte (mem : Mem) (addr val word : Nat)
    (ha : addr < 2 ^ 64) (hm : mem (align_addr_to_word addr) = some word)
    (hw : word < 2 ^ 64) (hv : val < 256) :
    ∃ mem' updated,
      write_byte mem addr val
        = .ok (byteAt word (addr - align_addr_to_word addr), mem') ∧
      mem' (align_addr_to_word addr) = some updated ∧
      byteAt updated (addr - align_addr_to_word addr) = val ∧
      (∀ j, j < 8 → j ≠ addr - align_addr_to_word addr →
        byteAt updated j = byteAt word j) ∧
      (∀ a, a ≠ align_addr_to_word addr → mem' a = mem a) := by
  obtain ⟨mem', updated, h1, h2, _h3, h4, h5⟩ :=
    write_byte_spec mem addr val word ha hm hw hv
  have hoff := byte_offset_eq addr ha
  refine ⟨mem', updated, ?_, h2, ?_, ?_, h5⟩
  · rw [hoff]; exact h1
  · rw [hoff]
    have := h4 (addr % 8) (Nat.mod_lt _ (by norm_num))
    simpa using this
  · intro j hj hne
    rw [hoff] at hne
    have := h4 j hj
    simpa [hne] using this

/-- Witness for C3 at a concrete input: patching byte 3 of the word at
address 0 with the trap opcode. -/
theorem write_byte_patches_one_byte_witness :
    ∃ mem' updated,
      write_byte (fun a => if a = 0 then some 0x0807060504030201 else none)
          3 0xcc
        = .ok (byteAt 0x0807060504030201 (3 - align_addr_to_word 3), mem') ∧
      mem' (align_addr_to_word 3) = some updated ∧
      byteAt updated (3 - align_addr_to_word 3) = 0xcc ∧
      (∀ j, j < 8 → j ≠ 3 - align_addr_to_word 3 →
        byteAt updated j = byteAt 0x0807060504030201 j) ∧
      (∀ a, a ≠ align_addr_to_word 3 →
        mem' a = (fun a => if a = 0 then some 0x0807060504030201 else none) a) :=
  write_byte_patches_one_byte
    (fun a => if a = 0 then some 0x0807060504030201 else none)
    3 0xcc 0x0807060504030201 (by decide) (by decide) (by decide) (by decide)

/-! ### Event-log bookkeeping lemmas -/

/-- The report tail of `handle_stop` only appends print events: the number of
single-step requests in its log is whatever the accumulator held. -/
theorem stop_report_tail_count_step (dbg : Debugger) (w : World)
    (fc : Option String) (ip : Nat) (acc : List Event) :
    ((stop_report_tail dbg w fc ip acc).events).count Event.evStep
      = acc.count Event.evStep := by
  rw [stop_report_tail]
  split
  · simp [List.count_append]
  · split
    · simp [List.count_append]
    · split
      · simp [List.count_append]
      · dsimp only
        split <;> simp [List.count_append]

/-- `handle_stop` never issues a single-step request. -/
theorem handle_stop_count_step (dbg : Debugger) (w : World)
    (fc : Option String) (status : Status) :
    ((handle_stop dbg w fc status).events).count Event.evStep = 0 := by
  rcases status with ⟨sig, ip⟩ | code | sig
  · rw [handle_stop]
    split
    · simp
    · split
      · simp
      · dsimp only
        split
        · split
          · simp
          · split
            · simp [List.count_append]
            · simp [stop_report_tail_count_step]
        · simp [stop_report_tail_count_step]
  · simp [handle_stop]
  · simp [handle_stop]

/-! ### Claim C1 -/

/-- C1. Resume step-over protocol: whenever `resume` runs while the child is
stopped with `rip` on a session breakpoint, it issues exactly one single-step
immediately followed by a wait; if the wait reports a stop with SIGTRAP the
trap opcode `0xcc` is re-written at that same address (before anything else,
in particular before the continue); a stop with any other signal panics with
the protocol-violation message rather than being swallowed. -/
theorem resume_step_over_protocol (dbg : Debugger) (w : World)
    (fc : Option String) (stepWait contWait : Except Unit Status)
    (inf : Inferior) (h1 : dbg.inferior = some inf)
    (h2 : dbg.breakpoints.contains w.regs.rip = true) :
    (resume dbg w fc stepWait contWait).events.take 2
        = [Event.evStep, Event.evWait] ∧
    (resume dbg w fc stepWait contWait).events.count Event.evStep = 1 ∧
    (∀ sig ip2, stepWait = .ok (.Stopped sig ip2) →
      (sig = SIGTRAP →
        (resume dbg w fc stepWait contWait).events.take 3
          = [Event.evStep, Event.evWait, Event.evWriteByte w.regs.rip 0xcc]) ∧
      (sig ≠ SIGTRAP →
        (resume dbg w fc stepWait contWait).panicked = some msgStepNonTrap)) := by
  rcases stepWait with e | st
  · rw [resume.eq_def, resume_step_over.eq_def]
    simp only [h1, h2, if_true]
    rcases contWait with e2 | st2 <;>
      simp [handle_stop_count_step, List.count_append]
  · rcases st with ⟨sig, ip2⟩ | code | sig
    · by_cases hsig : sig = SIGTRAP
      · subst hsig
        rw [resume.eq_def, resume_step_over.eq_def]
        simp only [h1, h2, if_true]
        cases hwe : write_byte w.mem w.regs.rip 0xcc with
        | ok v =>
          rcases v with ⟨orig, mem'⟩
          rcases contWait with e2 | st2 <;>
            simp [hwe, h1, handle_stop_count_step, List.count_append]
        | error e =>
          simp [hwe]
      · rw [resume.eq_def, resume_step_over.eq_def]
        simp only [h1, h2, if_true]
        simp [hsig]
    · rw [resume.eq_def, resume_step_over.eq_def]
      simp only [h1, h2, if_true]
      simp [handle_stop, List.count_append]
    · rw [resume.eq_def, resume_step_over.eq_def]
      simp only [h1, h2, if_true]
      simp [handle_stop, List.count_append]

/-- Witness for C1: a session stopped exactly on its breakpoint `0x1000`,
with a SIGTRAP step result: the trap opcode is re-written at `0x1000`. -/
theorem resume_step_over_protocol_witness :
    (resume ⟨"t", some ⟨fun _ => none⟩,
        ⟨fun _ => none, fun _ => none, fun _ => none, fun _ => none⟩, [0x1000]⟩
        ⟨fun a => if a = 0x1000 then some 0 else none, ⟨0x1000, 0⟩⟩ none
        (.ok (.Stopped SIGTRAP 0x1001)) (.ok (.Exited 0))).events.take 3
      = [Event.evStep, Event.evWait, Event.evWriteByte 0x1000 0xcc] :=
  ((resume_step_over_protocol _ _ none _ _ ⟨fun _ => none⟩ rfl
      (by decide)).2.2 SIGTRAP 0x1001 rfl).1 rfl

/-- The report tail of `handle_stop` does not change the session or child
state. -/
theorem stop_report_tail_state (dbg : Debugger) (w : World) (fc : Option String)
    (ip : Nat) (acc : List Event) :
    (stop_report_tail dbg w fc ip acc).world = w ∧
    (stop_report_tail dbg w fc ip acc).dbg = dbg := by
  rw [stop_report_tail]
  split
  · exact ⟨rfl, rfl⟩
  · split
    · exact ⟨rfl, rfl⟩
    · split
      · exact ⟨rfl, rfl⟩
      · dsimp only
        split <;> exact ⟨rfl, rfl⟩

/-- Events accumulated before the report tail stay in the log. -/
theorem stop_report_tail_mem_acc (dbg : Debugger) (w : World) (fc : Option String)
    (ip : Nat) (acc : List Event) (e : Event) (he : e ∈ acc) :
    e ∈ (stop_report_tail dbg w fc ip acc).events := by
  rw [stop_report_tail]
  split
  · simp [he]
  · split
    · simp [he]
    · split
      · simp [he]
      · dsimp only
        split <;> simp [he]

/-! ### Claim C2 -/

/-- C2. Breakpoint-hit stop handling: on `Stopped (sig, ip)` with
`candidate = ip - 1` a member of the session breakpoint list, `handle_stop`
restores the saved original byte at `candidate` (the byte read back at
`candidate` afterwards equals the saved pre-patch byte), rewinds the
instruction-pointer register to exactly `candidate`, and reports a stop at
breakpoint `candidate`; when `candidate` is not in the list it reports a
generic stop and leaves memory and registers untouched. -/
theorem handle_stop_breakpoint_hit (dbg : Debugger) (w : World)
    (fc : Option String) (sig : Signal) (ip : Nat) (inf : Inferior)
    (h1 : dbg.inferior = some inf) (hip : 1 ≤ ip) :
    (dbg.breakpoints.contains (ip - 1) = true →
      ∀ b word, inf.bp_map (ip - 1) = some b → b < 256 →
        w.mem (align_addr_to_word (ip - 1)) = some word → word < 2 ^ 64 →
        ip - 1 < 2 ^ 64 →
        ∃ updated,
          (handle_stop dbg w fc (.Stopped sig ip)).world.mem
              (align_addr_to_word (ip - 1)) = some updated ∧
          byteAt updated ((ip - 1) % 8) = b ∧
          (handle_stop dbg w fc (.Stopped sig ip)).world.regs.rip = ip - 1 ∧
          Event.evPrintStoppedAtBreakpoint (ip - 1) sig
            ∈ (handle_stop dbg w fc (.Stopped sig ip)).events) ∧
    (dbg.breakpoints.contains (ip - 1) = false →
      (handle_stop dbg w fc (.Stopped sig ip)).world = w ∧
      (handle_stop dbg w fc (.Stopped sig ip)).dbg = dbg ∧
      Event.evPrintStoppedSignal sig
        ∈ (handle_stop dbg w fc (.Stopped sig ip)).events) := by
  have hip0 : ¬ ip = 0 := by omega
  constructor
  · intro hc b word hb hblt hword hwlt halt
    obtain ⟨mem', updated, hwb, hmem', hult, hbytes, _hother⟩ :=
      write_byte_spec w.mem (ip - 1) b word halt hword hwlt hblt
    have hrun : handle_stop dbg w fc (.Stopped sig ip)
        = stop_report_tail dbg ⟨mem', ⟨ip - 1, w.regs.rbp⟩⟩ fc ip
            [Event.evPrintStoppedAtBreakpoint (ip - 1) sig,
             Event.evWriteByte (ip - 1) b, Event.evSetRegs (ip - 1)] := by
      simp only [handle_stop, hip0, if_false, ite_false, h1, hc, hb, hwb,
        eq_self_iff_true, if_true, ite_true]
      rfl
    rw [hrun]
    obtain ⟨hworld, _hdbg⟩ := stop_report_tail_state dbg
      ⟨mem', ⟨ip - 1, w.regs.rbp⟩⟩ fc ip
      [Event.evPrintStoppedAtBreakpoint (ip - 1) sig,
       Event.evWriteByte (ip - 1) b, Event.evSetRegs (ip - 1)]
    refine ⟨updated, ?_, ?_, ?_, ?_⟩
    · rw [hworld]; exact hmem'
    · have := hbytes ((ip - 1) % 8) (Nat.mod_lt _ (by norm_num))
      simpa using this
    · rw [hworld]
    · exact stop_report_tail_mem_acc _ _ _ _ _ _ (by simp)
  · intro hc
    have hrun : handle_stop dbg w fc (.Stopped sig ip)
        = stop_report_tail dbg w fc ip [Event.evPrintStoppedSignal sig] := by
      simp only [handle_stop, hip0, if_false, ite_false, h1, hc,
        Bool.false_eq_true, if_true, ite_true]
    rw [hrun]
    obtain ⟨hworld, hdbg⟩ := stop_report_tail_state dbg w fc ip
      [Event.evPrintStoppedSignal sig]
    exact ⟨hworld, hdbg, stop_report_tail_mem_acc _ _ _ _ _ _ (by simp)⟩

/-- Witness for C2: a hit on breakpoint `0x1000` (stop reported at
`ip = 0x1001`) with saved original byte `0x55`. -/
theorem handle_stop_breakpoint_hit_witness :
    ∃ updated,
      (handle_stop
          ⟨"t", some ⟨fun a => if a = 0x1000 then some 0x55 else none⟩,
            ⟨fun _ => none, fun _ => none, fun _ => none, fun _ => none⟩, [0x1000]⟩
          ⟨fun a => if a = 0x1000 then some 0xcc else none, ⟨0x1001, 7⟩⟩ none
          (.Stopped SIGTRAP 0x1001)).world.mem
          (align_addr_to_word (0x1001 - 1)) = some updated ∧
      byteAt updated ((0x1001 - 1) % 8) = 0x55 ∧
      (handle_stop
          ⟨"t", some ⟨fun a => if a = 0x1000 then some 0x55 else none⟩,
            ⟨fun _ => none, fun _ => none, fun _ => none, fun _ => none⟩, [0x1000]⟩
          ⟨fun a => if a = 0x1000 then some 0xcc else none, ⟨0x1001, 7⟩⟩ none
          (.Stopped SIGTRAP 0x1001)).world.regs.rip = 0x1001 - 1 ∧
      Event.evPrintStoppedAtBreakpoint (0x1001 - 1) SIGTRAP
        ∈ (handle_stop
          ⟨"t", some ⟨fun a => if a = 0x1000 then some 0x55 else none⟩,
            ⟨fun _ => none, fun _ => none, fun _ => none, fun _ => none⟩, [0x1000]⟩
          ⟨fun a => if a = 0x1000 then some 0xcc else none, ⟨0x1001, 7⟩⟩ none
          (.Stopped SIGTRAP 0x1001)).events :=
  (handle_stop_breakpoint_hit _ _ none SIGTRAP 0x1001 _ rfl (by decide)).1
    (by decide) 0x55 0xcc (by decide) (by decide) (by decide) (by decide)
    (by decide)

/-! ### Claim C10 -/

/-- C10. Implicit precondition of stop handling: on a `Stopped` status with
`ip = 0` the unchecked `ip - 1` underflows and panics before any
classification happens — no event is emitted and the state is untouched,
whatever the session state, child state, or signal. -/
theorem handle_stop_ip_zero_underflow (dbg : Debugger) (w : World)
    (fc : Option String) (sig : Signal) :
    handle_stop dbg w fc (.Stopped sig 0)
      = ⟨[], dbg, w, some msgSubUnderflow⟩ := by
  rw [handle_stop]
  simp

/-! ### Claim C4 -/

/-- Counterexample to C4 as stated: with the session stopped exactly on its
breakpoint `0x1000` and the step-over wait reporting `Exited 0`, the
step-over's `handle_stop` discards the inferior, and `resume` then panics at
`self.inferior.as_mut().unwrap()` — no continue request is ever issued. -/
theorem resume_exited_step_skips_cont :
    (resume ⟨"t", some ⟨fun _ => none⟩,
        ⟨fun _ => none, fun _ => none, fun _ => none, fun _ => none⟩, [0x1000]⟩
        ⟨fun _ => none, ⟨0x1000, 0⟩⟩ none
        (.ok (.Exited 0)) (.ok (.Exited 0))).panicked = some msgUnwrapNone ∧
    Event.evCont ∉ (resume ⟨"t", some ⟨fun _ => none⟩,
        ⟨fun _ => none, fun _ => none, fun _ => none, fun _ => none⟩, [0x1000]⟩
        ⟨fun _ => none, ⟨0x1000, 0⟩⟩ none
        (.ok (.Exited 0)) (.ok (.Exited 0))).events := by
  constructor
  · rfl
  · decide

/-- C4 amended. After the step-over logic, `resume` issues a full continue
and dispatches the resulting status to `handle_stop` whenever the step-over
phase neither panicked nor discarded the inferior; but when the step-over
wait returns an `Exited` or `Signaled` status (which discards the
TracedProcess), the subsequent `unwrap` of the session's inferior panics and
no continue is issued. -/
theorem resume_cont_dispatch (dbg : Debugger) (w : World) (fc : Option String)
    (stepWait contWait : Except Unit Status) (inf : Inferior)
    (h1 : dbg.inferior = some inf) :
    ((resume_step_over dbg w fc stepWait).panicked = none →
     (resume_step_over dbg w fc stepWait).dbg.inferior.isSome = true →
      (∀ st, contWait = .ok st →
        resume dbg w fc stepWait contWait =
          ⟨(resume_step_over dbg w fc stepWait).events ++ [Event.evCont, Event.evWait]
              ++ (handle_stop (resume_step_over dbg w fc stepWait).dbg
                    (resume_step_over dbg w fc stepWait).world fc st).events,
            (handle_stop (resume_step_over dbg w fc stepWait).dbg
                (resume_step_over dbg w fc stepWait).world fc st).dbg,
            (handle_stop (resume_step_over dbg w fc stepWait).dbg
                (resume_step_over dbg w fc stepWait).world fc st).world,
            (handle_stop (resume_step_over dbg w fc stepWait).dbg
                (resume_step_over dbg w fc stepWait).world fc st).panicked⟩) ∧
      (∀ e, contWait = .error e →
        resume dbg w fc stepWait contWait =
          ⟨(resume_step_over dbg w fc stepWait).events
              ++ [Event.evCont, Event.evWait, Event.evPrintErrorResuming],
            (resume_step_over dbg w fc stepWait).dbg,
            (resume_step_over dbg w fc stepWait).world, none⟩)) ∧
    (dbg.breakpoints.contains w.regs.rip = true →
      ∀ st, stepWait = .ok st → (∀ sig ip2, st ≠ .Stopped sig ip2) →
        (resume dbg w fc stepWait contWait).panicked = some msgUnwrapNone ∧
        Event.evCont ∉ (resume dbg w fc stepWait contWait).events) := by
  constructor
  · intro hp hs
    obtain ⟨i2, hi2⟩ := Option.isSome_iff_exists.mp hs
    constructor
    · intro st hst
      subst hst
      rw [resume.eq_def]
      dsimp only
      rw [hp, hi2]
    · intro e hst
      subst hst
      rw [resume.eq_def]
      dsimp only
      rw [hp, hi2]
  · intro hc st hst hne
    rcases st with ⟨sig, ip2⟩ | c | s
    · exact absurd rfl (hne sig ip2)
    · subst hst
      rw [resume.eq_def, resume_step_over.eq_def]
      simp only [h1, hc, eq_self_iff_true, if_true, ite_true, handle_stop]
      constructor
      · trivial
      · simp
    · subst hst
      rw [resume.eq_def, resume_step_over.eq_def]
      simp only [h1, hc, eq_self_iff_true, if_true, ite_true, handle_stop]
      constructor
      · trivial
      · simp

/-- Witness for the amended C4: a session not stopped on any breakpoint; the
continue is issued and the `Exited` result is dispatched to `handle_stop`. -/
theorem resume_cont_dispatch_witness :
    resume ⟨"t", some ⟨fun _ => none⟩,
        ⟨fun _ => none, fun _ => none, fun _ => none, fun _ => none⟩, [0x1000]⟩
        ⟨fun _ => none, ⟨0x2000, 0⟩⟩ none (.error ()) (.ok (.Exited 0)) =
      ⟨(resume_step_over ⟨"t", some ⟨fun _ => none⟩,
          ⟨fun _ => none, fun _ => none, fun _ => none, fun _ => none⟩, [0x1000]⟩
          ⟨fun _ => none, ⟨0x2000, 0⟩⟩ none (.error ())).events
          ++ [Event.evCont, Event.evWait]
          ++ (handle_stop (resume_step_over ⟨"t", some ⟨fun _ => none⟩,
                ⟨fun _ => none, fun _ => none, fun _ => none, fun _ => none⟩, [0x1000]⟩
                ⟨fun _ => none, ⟨0x2000, 0⟩⟩ none (.error ())).dbg
              (resume_step_over ⟨"t", some ⟨fun _ => none⟩,
                ⟨fun _ => none, fun _ => none, fun _ => none, fun _ => none⟩, [0x1000]⟩
                ⟨fun _ => none, ⟨0x2000, 0⟩⟩ none (.error ())).world none
              (.Exited 0)).events,
        (handle_stop (resume_step_over ⟨"t", some ⟨fun _ => none⟩,
              ⟨fun _ => none, fun _ => none, fun _ => none, fun _ => none⟩, [0x1000]⟩
              ⟨fun _ => none, ⟨0x2000, 0⟩⟩ none (.error ())).dbg
            (resume_step_over ⟨"t", some ⟨fun _ => none⟩,
              ⟨fun _ => none, fun _ => none, fun _ => none, fun _ => none⟩, [0x1000]⟩
              ⟨fun _ => none, ⟨0x2000, 0⟩⟩ none (.error ())).world none
            (.Exited 0)).dbg,
        (handle_stop (resume_step_over ⟨"t", some ⟨fun _ => none⟩,
              ⟨fun _ => none, fun _ => none, fun _ => none, fun _ => none⟩, [0x1000]⟩
              ⟨fun _ => none, ⟨0x2000, 0⟩⟩ none (.error ())).dbg
            (resume_step_over ⟨"t", some ⟨fun _ => none⟩,
              ⟨fun _ => none, fun _ => none, fun _ => none, fun _ => none⟩, [0x1000]⟩
              ⟨fun _ => none, ⟨0x2000, 0⟩⟩ none (.error ())).world none
            (.Exited 0)).world,
        (handle_stop (resume_step_over ⟨"t", some ⟨fun _ => none⟩,
              ⟨fun _ => none, fun _ => none, fun _ => none, fun _ => none⟩, [0x1000]⟩
              ⟨fun _ => none, ⟨0x2000, 0⟩⟩ none (.error ())).dbg
            (resume_step_over ⟨"t", some ⟨fun _ => none⟩,
              ⟨fun _ => none, fun _ => none, fun _ => none, fun _ => none⟩, [0x1000]⟩
              ⟨fun _ => none, ⟨0x2000, 0⟩⟩ none (.error ())).world none
            (.Exited 0)).panicked⟩ :=
  ((resume_cont_dispatch
      ⟨"t", some ⟨fun _ => none⟩,
        ⟨fun _ => none, fun _ => none, fun _ => none, fun _ => none⟩, [0x1000]⟩
      ⟨fun _ => none, ⟨0x2000, 0⟩⟩ none (.error ()) (.ok (.Exited 0))
      ⟨fun _ => none⟩ rfl).1 rfl rfl).1 (.Exited 0) rfl

/-! ### Breakpoint-installation bookkeeping lemmas -/

/-- A successful `write_byte` maps no address out of existence. -/
theorem write_byte_isSome_of_isSome (mem : Mem) (addr val : Nat)
    (hm : (mem (align_addr_to_word addr)).isSome = true) :
    ∃ o mem', write_byte mem addr val = .ok (o, mem') ∧
      ∀ x, (mem x).isSome = true → (mem' x).isSome = true := by
  obtain ⟨word, hword⟩ := Option.isSome_iff_exists.mp hm
  refine ⟨_, _, by rw [write_byte]; rw [hword], ?_⟩
  intro x hx
  by_cases hxa : x = align_addr_to_word addr <;> simp [hxa, hx]

/-- `write_breakpoints` never removes an entry from `bp_map`. -/
theorem write_breakpoints_bp_mono (l : List Nat) (inf : Inferior) (mem : Mem)
    (x : Nat) (hx : (inf.bp_map x).isSome = true) :
    ((write_breakpoints inf mem l).inf.bp_map x).isSome = true := by
  induction l generalizing inf mem with
  | nil => exact hx
  | cons bpt rest ih =>
    rw [write_breakpoints]
    cases hb : inf.bp_map bpt with
    | some o => exact ih inf mem hx
    | none =>
      cases hwb : write_byte mem bpt 0xcc with
      | ok v =>
        rcases v with ⟨orig, mem'⟩
        refine ih _ mem' ?_
        by_cases hxb : x = bpt <;> simp [hxb, hx]
      | error e => exact hx

/-- A successful `write_byte` keeps every mapped word mapped. -/
theorem write_byte_ok_mono (mem : Mem) (addr val o : Nat) (mem' : Mem)
    (h : write_byte mem addr val = .ok (o, mem')) :
    ∀ x, (mem x).isSome = true → (mem' x).isSome = true := by
  rw [write_byte] at h
  cases hma : mem (align_addr_to_word addr) with
  | none => rw [hma] at h; cases h
  | some word =>
    rw [hma] at h
    injection h with hp
    obtain ⟨_h1, h2⟩ := Prod.mk.inj hp
    intro x hx
    rw [← h2]
    by_cases hxa : x = align_addr_to_word addr <;> simp [hxa, hx]

/-- `write_breakpoints` never unmaps memory words. -/
theorem write_breakpoints_mem_mono (l : List Nat) (inf : Inferior) (mem : Mem)
    (x : Nat) (hx : (mem x).isSome = true) :
    ((write_breakpoints inf mem l).mem x).isSome = true := by
  induction l generalizing inf mem with
  | nil => exact hx
  | cons bpt rest ih =>
    rw [write_breakpoints]
    cases hb : inf.bp_map bpt with
    | some o => exact ih inf mem hx
    | none =>
      cases hwb : write_byte mem bpt 0xcc with
      | ok v =>
        rcases v with ⟨orig, mem'⟩
        exact ih _ mem' (write_byte_ok_mono mem bpt 0xcc orig mem' hwb x hx)
      | error e => exact hx

/-- When every requested address lies in a mapped word, `write_breakpoints`
records an original byte for every requested address. -/
theorem write_breakpoints_installs (l : List Nat) (inf : Inferior) (mem : Mem)
    (hmem : ∀ a ∈ l, (mem (align_addr_to_word a)).isSome = true) :
    ∀ a ∈ l, ((write_breakpoints inf mem l).inf.bp_map a).isSome = true := by
  induction l generalizing inf mem with
  | nil => intro a ha; cases ha
  | cons bpt rest ih =>
    intro a ha
    rw [write_breakpoints]
    cases hb : inf.bp_map bpt with
    | some o =>
      rcases List.mem_cons.mp ha with rfl | hrest
      · exact write_breakpoints_bp_mono rest inf mem a (by simp [hb])
      · exact ih inf mem (fun x hx => hmem x (List.mem_cons_of_mem _ hx)) a hrest
    | none =>
      obtain ⟨o, mem', heq, hmono⟩ :=
        write_byte_isSome_of_isSome mem bpt 0xcc
          (hmem bpt (List.mem_cons_self _ _))
      rw [heq]
      rcases List.mem_cons.mp ha with rfl | hrest
      · exact write_breakpoints_bp_mono rest _ mem' a (by simp)
      · exact ih _ mem'
          (fun x hx => hmono _ (hmem x (List.mem_cons_of_mem _ hx))) a hrest

/-- A singleton `write_breakpoints` that reports success has recorded the
address. -/
theorem write_breakpoints_single_ok (inf : Inferior) (mem : Mem) (bp : Nat)
    (h : (write_breakpoints inf mem [bp]).result = .ok ()) :
    ((write_breakpoints inf mem [bp]).inf.bp_map bp).isSome = true := by
  rw [write_breakpoints] at h ⊢
  cases hb : inf.bp_map bp with
  | some o => simp [write_breakpoints, hb]
  | none =>
    cases hwb : write_byte mem bp 0xcc with
    | ok v =>
      rcases v with ⟨orig, mem'⟩
      simp [write_breakpoints, hb, hwb]
    | error e =>
      rw [hb, hwb] at h
      cases h

/-! ### Claim C5 -/

/-- Counterexample to C5 as stated: launching with requested breakpoint
`0x1000` against a child whose memory is unreadable there makes the install
fail, yet `Inferior::new` still returns the process — which is then alive
with `0x1000` in the session's breakpoint list but absent from `bp_map`. -/
theorem new_install_failure_breaks_sync :
    (0x1000 ∈ ([0x1000] : List Nat)) ∧
    ((Inferior.new true (.ok (.Stopped SIGTRAP 0)) [0x1000]
        (fun _ => none)).result.map (fun p => p.1.bp_map 0x1000) = some none) := by
  constructor
  · decide
  · rfl

/-- C5 amended. The requested/installed synchronization invariant holds
whenever the individual installs succeed: (a) a process started by
`Inferior::new` whose pre-registered breakpoints all lie in readable memory
has every one of them recorded in `bp_map`; (b) a breakpoint request made
while a process is active preserves the invariant — even when the install
fails, because in that case the address is not added to the session list
either. It can fail only for `Inferior::new` with an unreadable breakpoint
address, as the counterexample shows. -/
theorem breakpoint_sync_invariant (breakpoints : List Nat) (mem : Mem)
    (spawnOk : Bool) (initialWait : Except Unit Status)
    (dbg : Debugger) (w : World) (bp : Nat) (inf : Inferior) :
    ((∀ a ∈ breakpoints, (mem (align_addr_to_word a)).isSome = true) →
      ∀ inf0 mem',
        (Inferior.new spawnOk initialWait breakpoints mem).result = some (inf0, mem') →
        ∀ a ∈ breakpoints, (inf0.bp_map a).isSome = true) ∧
    (dbg.inferior = some inf →
      (∀ a ∈ dbg.breakpoints, (inf.bp_map a).isSome = true) →
      ∀ inf', (set_breakpoint_resolved dbg w bp).dbg.inferior = some inf' →
        ∀ a ∈ (set_breakpoint_resolved dbg w bp).dbg.breakpoints,
          (inf'.bp_map a).isSome = true) := by
  constructor
  · intro hmem inf0 mem' hres a ha
    rw [Inferior.new.eq_def] at hres
    cases spawnOk with
    | false => simp at hres
    | true =>
      rw [if_pos rfl] at hres
      rcases initialWait with e | st
      · simp at hres
      · rcases st with ⟨sig, ip⟩ | c | s
        · dsimp only at hres
          by_cases hsig : sig = SIGTRAP
          · rw [if_neg (by simp [hsig])] at hres
            have hinst := write_breakpoints_installs breakpoints
              ⟨fun _ => none⟩ mem hmem a ha
            cases hr : (write_breakpoints ⟨fun _ => none⟩ mem breakpoints).result with
            | ok u =>
              rw [hr] at hres
              dsimp only at hres
              injection hres with hpair
              obtain ⟨h1, _h2⟩ := Prod.mk.inj hpair
              rw [← h1]
              exact hinst
            | error e =>
              rw [hr] at hres
              dsimp only at hres
              injection hres with hpair
              obtain ⟨h1, _h2⟩ := Prod.mk.inj hpair
              rw [← h1]
              exact hinst
          · rw [if_pos (by simp [hsig])] at hres
            simp at hres
        · simp at hres
        · simp at hres
  · intro h1 hsync inf' hinf' a ha
    rw [set_breakpoint_resolved] at hinf' ha
    by_cases hc : dbg.breakpoints.contains bp = true
    · rw [if_pos hc] at hinf' ha
      dsimp only at hinf' ha
      rw [h1] at hinf'
      injection hinf' with h2
      subst h2
      exact hsync a ha
    · rw [if_neg hc] at hinf' ha
      rw [h1] at hinf' ha
      dsimp only at hinf' ha
      cases hr : (write_breakpoints inf w.mem [bp]).result with
      | error e =>
        rw [hr] at hinf' ha
        dsimp only at hinf' ha
        injection hinf' with h2
        subst h2
        exact write_breakpoints_bp_mono [bp] inf w.mem a (hsync a ha)
      | ok u =>
        rw [hr] at hinf' ha
        dsimp only at hinf' ha
        injection hinf' with h2
        subst h2
        rcases List.mem_append.mp ha with hold | hnew
        · exact write_breakpoints_bp_mono [bp] inf w.mem a (hsync a hold)
        · have hab : a = bp := by simpa using hnew
          subst hab
          exact write_breakpoints_single_ok inf w.mem a (by rw [hr])

/-- Witness for the amended C5: a successful launch installs the single
requested breakpoint, and a duplicate request with a live process keeps the
invariant. -/
theorem breakpoint_sync_invariant_witness :
    (∀ a ∈ ([0x1000] : List Nat),
      ((⟨fun x => if x = 0x1000 then some 0x55 else none⟩ : Inferior).bp_map a).isSome
        = true) ∧
    ∀ inf', (set_breakpoint_resolved
        ⟨"t", some ⟨fun x => if x = 0x1000 then some 0x55 else none⟩,
          ⟨fun _ => none, fun _ => none, fun _ => none, fun _ => none⟩, [0x1000]⟩
        ⟨fun _ => none, ⟨0, 0⟩⟩ 0x1000).dbg.inferior = some inf' →
      ∀ a ∈ (set_breakpoint_resolved
        ⟨"t", some ⟨fun x => if x = 0x1000 then some 0x55 else none⟩,
          ⟨fun _ => none, fun _ => none, fun _ => none, fun _ => none⟩, [0x1000]⟩
        ⟨fun _ => none, ⟨0, 0⟩⟩ 0x1000).dbg.breakpoints,
        (inf'.bp_map a).isSome = true :=
  ⟨by decide,
   (breakpoint_sync_invariant [0x1000] (fun _ => none) true (.ok (.Stopped SIGTRAP 0))
      ⟨"t", some ⟨fun x => if x = 0x1000 then some 0x55 else none⟩,
        ⟨fun _ => none, fun _ => none, fun _ => none, fun _ => none⟩, [0x1000]⟩
      ⟨fun _ => none, ⟨0, 0⟩⟩ 0x1000
      ⟨fun x => if x = 0x1000 then some 0x55 else none⟩).2 rfl (by decide)⟩

/-! ### Claim C6 -/

/-- Counterexample to C6 as stated: with a process active and a failing
launch (`spawn` fails), `Run` kills the old process and reports the error,
but `self.inferior` is never cleared — the session still holds the old
(killed) TracedProcess instead of being left with no active process. -/
theorem run_failure_keeps_old_inferior :
    (run_command ⟨"t", some ⟨fun _ => none⟩,
        ⟨fun _ => none, fun _ => none, fun _ => none, fun _ => none⟩, []⟩
        ⟨fun _ => none, ⟨0, 0⟩⟩ none [] false
        (.error ()) (.error ()) (.error ())).dbg.inferior.isSome = true ∧
    Event.evPrintErrorStarting ∈ (run_command ⟨"t", some ⟨fun _ => none⟩,
        ⟨fun _ => none, fun _ => none, fun _ => none, fun _ => none⟩, []⟩
        ⟨fun _ => none, ⟨0, 0⟩⟩ none [] false
        (.error ()) (.error ()) (.error ())).events := by
  constructor
  · rfl
  · decide

/-- C6 amended. `Run` kills any active process before launching (the kill is
the very first action, ahead of the spawn), and a failed launch reports a
user-visible error, panics nothing, and leaves the session's breakpoint list
intact — but it leaves the `inferior` field exactly as it was (still holding
the old, killed process when one existed) rather than clearing it. -/
theorem run_command_spec (dbg : Debugger) (w : World) (fc : Option String)
    (args : List String) (spawnOk : Bool)
    (initialWait stepWait contWait : Except Unit Status) :
    (∀ inf, dbg.inferior = some inf →
      (run_command dbg w fc args spawnOk initialWait stepWait contWait).events.take 2
        = [Event.evKill, Event.evPrintStarting dbg.target]) ∧
    ((Inferior.new spawnOk initialWait dbg.breakpoints w.mem).result = none →
      (run_command dbg w fc args spawnOk initialWait stepWait contWait).dbg.inferior
          = dbg.inferior ∧
      (run_command dbg w fc args spawnOk initialWait stepWait contWait).dbg.breakpoints
          = dbg.breakpoints ∧
      Event.evPrintErrorStarting
        ∈ (run_command dbg w fc args spawnOk initialWait stepWait contWait).events ∧
      (run_command dbg w fc args spawnOk initialWait stepWait contWait).panicked
          = none) := by
  constructor
  · intro inf h1
    rw [run_command.eq_def]
    rw [h1]
    dsimp only
    cases hn : (Inferior.new spawnOk initialWait dbg.breakpoints w.mem).result with
    | some p =>
      rcases p with ⟨inf2, mem'⟩
      simp
    | none => simp
  · intro hn
    rw [run_command.eq_def]
    dsimp only
    rw [hn]
    cases dbg.inferior <;> simp

/-- Witness for the amended C6: failed launch with an active process leaves
the inferior field untouched and reports the error. -/
theorem run_command_spec_witness :
    (run_command ⟨"u", some ⟨fun _ => none⟩,
        ⟨fun _ => none, fun _ => none, fun _ => none, fun _ => none⟩, []⟩
        ⟨fun _ => none, ⟨0, 0⟩⟩ none [] false
        (.error ()) (.error ()) (.error ())).dbg.inferior
        = (⟨"u", some ⟨fun _ => none⟩,
            ⟨fun _ => none, fun _ => none, fun _ => none, fun _ => none⟩,
            []⟩ : Debugger).inferior ∧
    (run_command ⟨"u", some ⟨fun _ => none⟩,
        ⟨fun _ => none, fun _ => none, fun _ => none, fun _ => none⟩, []⟩
        ⟨fun _ => none, ⟨0, 0⟩⟩ none [] false
        (.error ()) (.error ()) (.error ())).dbg.breakpoints
        = (⟨"u", some ⟨fun _ => none⟩,
            ⟨fun _ => none, fun _ => none, fun _ => none, fun _ => none⟩,
            []⟩ : Debugger).breakpoints ∧
    Event.evPrintErrorStarting ∈ (run_command ⟨"u", some ⟨fun _ => none⟩,
        ⟨fun _ => none, fun _ => none, fun _ => none, fun _ => none⟩, []⟩
        ⟨fun _ => none, ⟨0, 0⟩⟩ none [] false
        (.error ()) (.error ()) (.error ())).events ∧
    (run_command ⟨"u", some ⟨fun _ => none⟩,
        ⟨fun _ => none, fun _ => none, fun _ => none, fun _ => none⟩, []⟩
        ⟨fun _ => none, ⟨0, 0⟩⟩ none [] false
        (.error ()) (.error ()) (.error ())).panicked = none :=
  (run_command_spec ⟨"u", some ⟨fun _ => none⟩,
      ⟨fun _ => none, fun _ => none, fun _ => none, fun _ => none⟩, []⟩
      ⟨fun _ => none, ⟨0, 0⟩⟩ none [] false
      (.error ()) (.error ()) (.error ())).2 rfl

/-! ### Claim C7 -/

/-- Counterexample to C7 as stated: a `Break` on fresh address `0x1000` with
a live process whose memory is unreadable there: the install failure is
reported and the session continues, but the address is **not** appended to
the session's breakpoint list (the handler returns before the push). -/
theorem break_install_failure_not_recorded :
    (set_breakpoint_resolved ⟨"t", some ⟨fun _ => none⟩,
        ⟨fun _ => none, fun _ => none, fun _ => none, fun _ => none⟩, []⟩
        ⟨fun _ => none, ⟨0, 0⟩⟩ 0x1000).dbg.breakpoints = [] ∧
    Event.evPrintUnableToSet 0x1000 ∈ (set_breakpoint_resolved
        ⟨"t", some ⟨fun _ => none⟩,
        ⟨fun _ => none, fun _ => none, fun _ => none, fun _ => none⟩, []⟩
        ⟨fun _ => none, ⟨0, 0⟩⟩ 0x1000).events ∧
    (set_breakpoint_resolved ⟨"t", some ⟨fun _ => none⟩,
        ⟨fun _ => none, fun _ => none, fun _ => none, fun _ => none⟩, []⟩
        ⟨fun _ => none, ⟨0, 0⟩⟩ 0x1000).panicked = none := by
  refine ⟨rfl, ?_, rfl⟩
  decide

/-- C7 amended. On a `Break` whose resolved address is new, with a live
process and a failing install, the failure is reported and the session
continues (no panic), but the address is dropped: the session breakpoint
list is left unchanged, so the breakpoint is **not** recorded for future
runs. -/
theorem break_install_failure_reported (dbg : Debugger) (w : World) (bp : Nat)
    (inf : Inferior) (h1 : dbg.inferior = some inf)
    (hc : dbg.breakpoints.contains bp = false)
    (hnk : inf.bp_map bp = none)
    (hmem : w.mem (align_addr_to_word bp) = none) :
    (set_breakpoint_resolved dbg w bp).dbg.breakpoints = dbg.breakpoints ∧
    bp ∉ (set_breakpoint_resolved dbg w bp).dbg.breakpoints ∧
    Event.evPrintUnableToSet bp ∈ (set_breakpoint_resolved dbg w bp).events ∧
    (set_breakpoint_resolved dbg w bp).panicked = none := by
  have hwb : write_byte w.mem bp 0xcc = .error () := by
    rw [write_byte]
    rw [hmem]
  have hrun : set_breakpoint_resolved dbg w bp
      = ⟨[Event.evPrintSettingBreakpoint dbg.breakpoints.length bp,
          Event.evWriteByte bp 0xcc, Event.evPrintUnableToSet bp],
         { dbg with inferior := some inf }, { w with mem := w.mem }, none⟩ := by
    rw [set_breakpoint_resolved]
    rw [if_neg (by rw [hc]; simp)]
    rw [h1]
    dsimp only
    simp only [write_breakpoints, hnk, hwb]
  rw [hrun]
  refine ⟨rfl, ?_, by simp, rfl⟩
  dsimp only
  simpa using hc

/-- Witness for the amended C7 at the concrete failing-install input. -/
theorem break_install_failure_reported_witness :
    (set_breakpoint_resolved ⟨"v", some ⟨fun _ => none⟩,
        ⟨fun _ => none, fun _ => none, fun _ => none, fun _ => none⟩, [1]⟩
        ⟨fun _ => none, ⟨0, 0⟩⟩ 0x1000).dbg.breakpoints
        = (⟨"v", some ⟨fun _ => none⟩,
            ⟨fun _ => none, fun _ => none, fun _ => none, fun _ => none⟩,
            [1]⟩ : Debugger).breakpoints ∧
    0x1000 ∉ (set_breakpoint_resolved ⟨"v", some ⟨fun _ => none⟩,
        ⟨fun _ => none, fun _ => none, fun _ => none, fun _ => none⟩, [1]⟩
        ⟨fun _ => none, ⟨0, 0⟩⟩ 0x1000).dbg.breakpoints ∧
    Event.evPrintUnableToSet 0x1000 ∈ (set_breakpoint_resolved
        ⟨"v", some ⟨fun _ => none⟩,
        ⟨fun _ => none, fun _ => none, fun _ => none, fun _ => none⟩, [1]⟩
        ⟨fun _ => none, ⟨0, 0⟩⟩ 0x1000).events ∧
    (set_breakpoint_resolved ⟨"v", some ⟨fun _ => none⟩,
        ⟨fun _ => none, fun _ => none, fun _ => none, fun _ => none⟩, [1]⟩
        ⟨fun _ => none, ⟨0, 0⟩⟩ 0x1000).panicked = none :=
  break_install_failure_reported _ _ 0x1000 ⟨fun _ => none⟩ rfl
    (by decide) rfl rfl

/-! ### Claim C8 -/

/-- A singleton `write_breakpoints` that fails changes neither the `bp_map`
nor the memory (the failure happens before any insertion). -/
theorem write_breakpoints_single_error (inf : Inferior) (mem : Mem) (bp : Nat)
    (h : (write_breakpoints inf mem [bp]).result = .error ()) :
    (write_breakpoints inf mem [bp]).inf = inf ∧
    (write_breakpoints inf mem [bp]).mem = mem := by
  cases hb : inf.bp_map bp with
  | some o =>
    exfalso
    rw [write_breakpoints, hb] at h
    simp [write_breakpoints] at h
  | none =>
    cases hwb : write_byte mem bp 0xcc with
    | ok v =>
      exfalso
      rcases v with ⟨o, m⟩
      rw [write_breakpoints, hb, hwb] at h
      simp [write_breakpoints] at h
    | error e =>
      rw [write_breakpoints, hb, hwb]
      exact ⟨rfl, rfl⟩

/-- Counterexample to C8 as stated: with a live process whose memory is
unreadable at address `0x1000`, requesting breakpoint `0x1000` twice leaves
**zero** entries for it, not one — each request's install fails and the early
return drops the address before the push (debugger.rs:302-306). -/
theorem break_twice_failing_install_zero_entries :
    ((⟨"t", some ⟨fun _ => none⟩,
        ⟨fun _ => none, fun _ => none, fun _ => none, fun _ => none⟩,
        []⟩ : Debugger).inferior.isSome = true) ∧
    (set_breakpoint_resolved
        (set_breakpoint_resolved ⟨"t", some ⟨fun _ => none⟩,
            ⟨fun _ => none, fun _ => none, fun _ => none, fun _ => none⟩, []⟩
          ⟨fun _ => none, ⟨0, 0⟩⟩ 0x1000).dbg
        (set_breakpoint_resolved ⟨"t", some ⟨fun _ => none⟩,
            ⟨fun _ => none, fun _ => none, fun _ => none, fun _ => none⟩, []⟩
          ⟨fun _ => none, ⟨0, 0⟩⟩ 0x1000).world
        0x1000).dbg.breakpoints.count 0x1000 = 0 := by
  constructor
  · rfl
  · rfl

/-- C8 amended. Requesting an address already in the session list reports a
duplicate and leaves the list unchanged; a request never introduces a
duplicate entry (`Nodup` is preserved), so the list never holds two entries
for the same address. Requesting the same resolved address twice leaves
exactly one entry whenever the first request records it: with no process
active, or with a live process whose install succeeds. With a live process
whose install fails, both requests are dropped before the push and zero
entries remain (as the counterexample shows). -/
theorem break_dedup (dbg : Debugger) (w : World) (bp : Nat) :
    (dbg.breakpoints.contains bp = true →
      (set_breakpoint_resolved dbg w bp).dbg.breakpoints = dbg.breakpoints ∧
      Event.evPrintBreakpointAlreadySet bp
        ∈ (set_breakpoint_resolved dbg w bp).events) ∧
    (dbg.breakpoints.Nodup →
      (set_breakpoint_resolved dbg w bp).dbg.breakpoints.Nodup) ∧
    (dbg.inferior = none → dbg.breakpoints.Nodup →
      (set_breakpoint_resolved (set_breakpoint_resolved dbg w bp).dbg
          (set_breakpoint_resolved dbg w bp).world bp).dbg.breakpoints.count bp
        = 1) ∧
    (∀ inf, dbg.inferior = some inf → dbg.breakpoints.contains bp = false →
      (write_breakpoints inf w.mem [bp]).result = .ok () →
      (set_breakpoint_resolved (set_breakpoint_resolved dbg w bp).dbg
          (set_breakpoint_resolved dbg w bp).world bp).dbg.breakpoints.count bp
        = 1) ∧
    (∀ inf, dbg.inferior = some inf → dbg.breakpoints.contains bp = false →
      (write_breakpoints inf w.mem [bp]).result = .error () →
      (set_breakpoint_resolved (set_breakpoint_resolved dbg w bp).dbg
          (set_breakpoint_resolved dbg w bp).world bp).dbg.breakpoints.count bp
        = 0) := by
  refine ⟨?_, ?_, ?_, ?_, ?_⟩
  · intro hc
    rw [set_breakpoint_resolved, if_pos hc]
    exact ⟨rfl, by simp⟩
  · intro hnd
    by_cases hc : dbg.breakpoints.contains bp = true
    · rw [set_breakpoint_resolved, if_pos hc]
      exact hnd
    · have hnm : bp ∉ dbg.breakpoints := by
        simpa using Bool.not_eq_true _ |>.mp hc
      rw [set_breakpoint_resolved, if_neg hc]
      cases hinfr : dbg.inferior with
      | none => simpa [List.nodup_append] using ⟨hnd, by simpa using hnm⟩
      | some inf =>
        dsimp only
        cases hr : (write_breakpoints inf w.mem [bp]).result with
        | error e => exact hnd
        | ok u => simpa [List.nodup_append] using ⟨hnd, by simpa using hnm⟩
  · intro hinfr hnd
    by_cases hc : dbg.breakpoints.contains bp = true
    · have h1 : set_breakpoint_resolved dbg w bp
          = ⟨[.evPrintBreakpointAlreadySet bp], dbg, w, none⟩ := by
        rw [set_breakpoint_resolved, if_pos hc]
      rw [h1]
      dsimp only
      rw [set_breakpoint_resolved, if_pos hc]
      exact List.count_eq_one_of_mem hnd (by simpa using hc)
    · have hnm : bp ∉ dbg.breakpoints := by
        simpa using Bool.not_eq_true _ |>.mp hc
      have h1 : set_breakpoint_resolved dbg w bp
          = ⟨[.evPrintSettingBreakpoint dbg.breakpoints.length bp],
             { dbg with breakpoints := dbg.breakpoints ++ [bp] }, w, none⟩ := by
        rw [set_breakpoint_resolved, if_neg hc, hinfr]
      rw [h1]
      dsimp only
      have hc2 : (dbg.breakpoints ++ [bp]).contains bp = true := by simp
      rw [set_breakpoint_resolved, if_pos hc2]
      dsimp only
      rw [List.count_append]
      rw [List.count_eq_zero_of_not_mem hnm]
      simp
  · intro inf h1 hc hok
    have hnm : bp ∉ dbg.breakpoints := by simpa using hc
    have h1run : set_breakpoint_resolved dbg w bp
        = ⟨Event.evPrintSettingBreakpoint dbg.breakpoints.length bp
              :: (write_breakpoints inf w.mem [bp]).events,
           { dbg with inferior := some (write_breakpoints inf w.mem [bp]).inf,
                      breakpoints := dbg.breakpoints ++ [bp] },
           { w with mem := (write_breakpoints inf w.mem [bp]).mem }, none⟩ := by
      rw [set_breakpoint_resolved, if_neg (by rw [hc]; simp), h1]
      dsimp only
      rw [hok]
    rw [h1run]
    dsimp only
    have hc2 : (dbg.breakpoints ++ [bp]).contains bp = true := by simp
    rw [set_breakpoint_resolved, if_pos hc2]
    dsimp only
    rw [List.count_append, List.count_eq_zero_of_not_mem hnm]
    simp
  · intro inf h1 hc herr
    have hnm : bp ∉ dbg.breakpoints := by simpa using hc
    obtain ⟨hri, hrm⟩ := write_breakpoints_single_error inf w.mem bp herr
    have h1run : set_breakpoint_resolved dbg w bp
        = ⟨Event.evPrintSettingBreakpoint dbg.breakpoints.length bp
              :: (write_breakpoints inf w.mem [bp]).events,
           { dbg with inferior := some (write_breakpoints inf w.mem [bp]).inf },
           { w with mem := (write_breakpoints inf w.mem [bp]).mem }, none⟩ := by
      rw [set_breakpoint_resolved, if_neg (by rw [hc]; simp), h1]
      dsimp only
      rw [herr]
    have heta : ({ dbg with
        inferior := some (write_breakpoints inf w.mem [bp]).inf } : Debugger) = dbg := by
      rw [hri, ← h1]
    have hetaW : ({ w with
        mem := (write_breakpoints inf w.mem [bp]).mem } : World) = w := by
      rw [hrm]
    rw [h1run]
    dsimp only
    rw [heta, hetaW]
    rw [h1run]
    dsimp only
    exact List.count_eq_zero_of_not_mem hnm

/-- Witness for the amended C8: two consecutive requests of address 7 on a
fresh session leave exactly one entry. -/
theorem break_dedup_witness :
    (set_breakpoint_resolved (set_breakpoint_resolved
        ⟨"t", none, ⟨fun _ => none, fun _ => none, fun _ => none, fun _ => none⟩, []⟩
        ⟨fun _ => none, ⟨0, 0⟩⟩ 7).dbg
      (set_breakpoint_resolved
        ⟨"t", none, ⟨fun _ => none, fun _ => none, fun _ => none, fun _ => none⟩, []⟩
        ⟨fun _ => none, ⟨0, 0⟩⟩ 7).world 7).dbg.breakpoints.count 7 = 1 :=
  (break_dedup ⟨"t", none,
      ⟨fun _ => none, fun _ => none, fun _ => none, fun _ => none⟩, []⟩
      ⟨fun _ => none, ⟨0, 0⟩⟩ 7).2.2.1 rfl List.nodup_nil

/-! ### Claim C9 -/

/-- C9. Backtrace frame walk: the walk starts from the current `rip`/`rbp`
with frame index 0; each iteration prints
`(frame_index, ip, resolved function or placeholder)`; it stops after the
frame whose resolved function is `"main"`; otherwise the next `ip` is the
word read at `frame_base + 8` and the next frame base the word read at
`frame_base`, with the index incremented; a failed read of either word
prints the unable-to-complete marker and truncates the walk, keeping the
frame(s) already printed. -/
theorem backtrace_frame_walk (dd : DwarfData) (w : World) (mem : Mem)
    (fuel stack_idx ip bp : Nat) :
    (backtrace dd w (fuel + 1)
      = backtrace_loop dd w.mem (fuel + 1) 0 w.regs.rip w.regs.rbp) ∧
    ((backtrace_loop dd mem (fuel + 1) stack_idx ip bp).1.take 1
      = [Event.evPrintFrame stack_idx ip (get_func_and_line dd ip).1
          (get_func_and_line dd ip).2]) ∧
    ((get_func_and_line dd ip).1 = "main" →
      backtrace_loop dd mem (fuel + 1) stack_idx ip bp
        = ([Event.evPrintFrame stack_idx ip (get_func_and_line dd ip).1
            (get_func_and_line dd ip).2], none)) ∧
    ((get_func_and_line dd ip).1 ≠ "main" →
      (mem (bp + 8) = none →
        backtrace_loop dd mem (fuel + 1) stack_idx ip bp
          = ([Event.evPrintFrame stack_idx ip (get_func_and_line dd ip).1
              (get_func_and_line dd ip).2, Event.evPrintBacktraceError], none)) ∧
      (∀ ipw, mem (bp + 8) = some ipw → ipw < 2 ^ 63 → mem bp = none →
        backtrace_loop dd mem (fuel + 1) stack_idx ip bp
          = ([Event.evPrintFrame stack_idx ip (get_func_and_line dd ip).1
              (get_func_and_line dd ip).2, Event.evPrintBacktraceError], none)) ∧
      (∀ ipw bpw, mem (bp + 8) = some ipw → ipw < 2 ^ 63 →
          mem bp = some bpw → bpw < 2 ^ 63 →
        backtrace_loop dd mem (fuel + 1) stack_idx ip bp
          = (Event.evPrintFrame stack_idx ip (get_func_and_line dd ip).1
                (get_func_and_line dd ip).2
              :: (backtrace_loop dd mem fuel (stack_idx + 1) ipw bpw).1,
             (backtrace_loop dd mem fuel (stack_idx + 1) ipw bpw).2))) := by
  refine ⟨rfl, ?_, ?_, ?_⟩
  · have hstep : ∃ t, (backtrace_loop dd mem (fuel + 1) stack_idx ip bp).1
        = Event.evPrintFrame stack_idx ip (get_func_and_line dd ip).1
            (get_func_and_line dd ip).2 :: t := by
      rw [backtrace_loop]
      dsimp only
      split
      · exact ⟨[], rfl⟩
      · split
        · exact ⟨[Event.evPrintBacktraceError], rfl⟩
        · split
          · split
            · exact ⟨[Event.evPrintBacktraceError], rfl⟩
            · split
              · exact ⟨_, rfl⟩
              · exact ⟨[], rfl⟩
          · exact ⟨[], rfl⟩
    obtain ⟨t, ht⟩ := hstep
    rw [ht]
    simp
  · intro hm
    rw [backtrace_loop]
    dsimp only
    rw [if_pos hm]
  · intro hm
    refine ⟨?_, ?_, ?_⟩
    · intro h8
      rw [backtrace_loop]
      dsimp only
      rw [if_neg hm, h8]
    · intro ipw h8 hi hb
      rw [backtrace_loop]
      dsimp only
      rw [if_neg hm, h8]
      dsimp only
      rw [if_pos hi, hb]
    · intro ipw bpw h8 hi hb hbw
      rw [backtrace_loop]
      dsimp only
      rw [if_neg hm, h8]
      dsimp only
      rw [if_pos hi, hb]
      dsimp only
      rw [if_pos hbw]

/-- Witness for C9: one non-main frame, then a frame resolving to `main`
where the walk stops. -/
theorem backtrace_frame_walk_witness :
    backtrace_loop
      ⟨fun a => if a = 0x2000 then some "main" else some "f",
        fun _ => none, fun _ => none, fun _ => none⟩
      (fun a => if a = 0x108 then some 0x2000 else if a = 0x100 then some 0x200 else none)
      3 1 0x2000 0x200
      = ([Event.evPrintFrame 1 0x2000
          (get_func_and_line
            ⟨fun a => if a = 0x2000 then some "main" else some "f",
              fun _ => none, fun _ => none, fun _ => none⟩ 0x2000).1
          (get_func_and_line
            ⟨fun a => if a = 0x2000 then some "main" else some "f",
              fun _ => none, fun _ => none, fun _ => none⟩ 0x2000).2], none) :=
  (backtrace_frame_walk
      ⟨fun a => if a = 0x2000 then some "main" else some "f",
        fun _ => none, fun _ => none, fun _ => none⟩
      ⟨fun _ => none, ⟨0, 0⟩⟩
      (fun a => if a = 0x108 then some 0x2000 else if a = 0x100 then some 0x200 else none)
      2 1 0x2000 0x200).2.2.1 rfl

end Deet
